import Mathlib

/-!
# Verification of the rust-ruby-ls symbol indexing and name-resolution engine

Shallow embedding of the core data model and algorithms of the repository:
`src/types.rs` (the `Scope` type and symbol data model), `src/finder.rs`
(constant / identifier resolution), `src/symbols_matcher.rs` (ranked fuzzy
search), `src/indexer.rs` (directory indexing and the file index) and the
`src/parsers_v2` symbol builders.  Tree-sitter syntax nodes, file systems and
the external fuzzy-matching crate are collaborators of the embedded code: the
values the code reads from them (resolved scopes of a reference, query
captures, directory-walk entries, fuzzy scores) appear as explicit parameters.
All machine-integer arithmetic of the source that can wrap is modelled on
`Nat`/`Int` with explicit `% 2^w`.
-/

/-- `tree_sitter::Point`: a row/column source position (`usize` fields). -/
structure Point where
  row : Nat
  column : Nat
deriving DecidableEq, Repr

/-- The derived lexicographic `Ord` of `tree_sitter::Point`: row first, then column. -/
def pointLe (a b : Point) : Prop :=
  a.row < b.row ∨ (a.row = b.row ∧ a.column ≤ b.column)

/-- Strict version of the `tree_sitter::Point` order. -/
def pointLt (a b : Point) : Prop :=
  a.row < b.row ∨ (a.row = b.row ∧ a.column < b.column)

instance : DecidableRel pointLe := fun a b => by unfold pointLe; infer_instance

instance : DecidableRel pointLt := fun a b => by unfold pointLt; infer_instance

/-- `types.rs`: `pub const SCOPE_DELIMITER: &str = "::"`. -/
def SCOPE_DELIMITER : String := "::"

/-- `types.rs`: `pub const GLOBAL_SCOPE_VALUE: &str = "$GLOBAL"`. -/
def GLOBAL_SCOPE_VALUE : String := "$GLOBAL"

/-- `types.rs`: `pub struct Scope { scopes: Vec<String> }`.  Equality is the
derived `PartialEq`, i.e. plain segment-wise equality of the vectors. -/
structure Scope where
  scopes : List String
deriving DecidableEq, Repr

/-- `Scope::is_global`: the first segment, if any, is the global sentinel. -/
def Scope.isGlobal (s : Scope) : Bool :=
  match s.scopes.head? with
  | none => false
  | some x => decide (x = GLOBAL_SCOPE_VALUE)

/-- `Scope::join`: concatenation, skipping the right-hand side's leading
global sentinel when present. -/
def Scope.join (l r : Scope) : Scope :=
  ⟨l.scopes ++ (if r.isGlobal then r.scopes.drop 1 else r.scopes)⟩

/-- `Scope::remove_last` / `Scope::without_last`: drop the last segment. -/
def Scope.withoutLast (s : Scope) : Scope :=
  ⟨s.scopes.dropLast⟩

/-- `impl From<&String> for Scope` (and the `&str`/`String` variants): a
one-segment scope. -/
def Scope.fromString (v : String) : Scope :=
  ⟨[v]⟩

/-- `impl Display for Scope`: join the segments with `::`, skipping the
leading global sentinel when present. -/
def Scope.render (s : Scope) : String :=
  String.intercalate SCOPE_DELIMITER (if s.isGlobal then s.scopes.drop 1 else s.scopes)

/-- `types.rs`: `pub enum RMethodParamKind { Regular, Optional, Keyword }`. -/
inductive RMethodParamKind where
  | Regular
  | Optional
  | Keyword
deriving DecidableEq, Repr

/-- `types.rs`: `pub struct RMethodParamV2`. -/
structure RMethodParamV2 where
  kind : RMethodParamKind
  file : String
  name : String
  start : Point
  endPos : Point
deriving DecidableEq, Repr

/-- `types.rs`: `pub enum RSymbolKind` with its per-variant payloads. -/
inductive RSymbolKind where
  | Class (superclassScope : Scope)
  | Module (superclassScope : Scope)
  | InstanceMethod (parameters : List RMethodParamV2)
  | SingletonMethod (parameters : List RMethodParamV2)
  | Constant
  | Variable
  | InstanceVariable
  | ClassVariable
  | GlobalVariable
deriving DecidableEq, Repr

/-- `RSymbolKind::is_classlike`. -/
def RSymbolKind.isClasslike : RSymbolKind → Bool
  | .Class _ => true
  | .Module _ => true
  | _ => false

/-- `matches!(kind, RSymbolKind::InstanceMethod { .. })`. -/
def RSymbolKind.isInstanceMethod : RSymbolKind → Bool
  | .InstanceMethod _ => true
  | _ => false

/-- `matches!(kind, RSymbolKind::SingletonMethod { .. })`. -/
def RSymbolKind.isSingletonMethod : RSymbolKind → Bool
  | .SingletonMethod _ => true
  | _ => false

/-- `types.rs`: `pub struct RSymbolV2`.  The `node: Weak<Node>` handle into
the external syntax tree is omitted; `parent` is the optional shared
back-reference to the lexically enclosing symbol, which makes the type
recursive. -/
inductive RSymbolV2 where
  | mk (kind : RSymbolKind) (name : String) (scope : Scope) (file : String)
       (start : Point) (endPos : Point) (parent : Option RSymbolV2)
deriving Repr

def RSymbolV2.kind : RSymbolV2 → RSymbolKind
  | .mk k _ _ _ _ _ _ => k

def RSymbolV2.name : RSymbolV2 → String
  | .mk _ n _ _ _ _ _ => n

def RSymbolV2.scope : RSymbolV2 → Scope
  | .mk _ _ sc _ _ _ _ => sc

def RSymbolV2.file : RSymbolV2 → String
  | .mk _ _ _ f _ _ _ => f

def RSymbolV2.start : RSymbolV2 → Point
  | .mk _ _ _ _ st _ _ => st

def RSymbolV2.endPos : RSymbolV2 → Point
  | .mk _ _ _ _ _ en _ => en

def RSymbolV2.parent : RSymbolV2 → Option RSymbolV2
  | .mk _ _ _ _ _ _ p => p

/-! ## `finder.rs`: the Scope/Identifier resolver

`Finder::find_definition` parses the file, classifies the node under the
cursor and dispatches to `find_constant`, `find_identifier` or
`find_global_variable`.  The values the Rust code obtains from the syntax
tree and from external collaborators — the referenced path
(`get_parent_scope_resolution`), the lexical nesting
(`get_context_scope`), the filename-convention scope
(`RubyFilenameConverter::path_to_scope`), the assignment query captures and
the call-receiver shape — are passed as parameters. -/

/-- `Finder::find_by_path`: all symbols of one file. -/
def findByPath (symbols : List RSymbolV2) (path : String) : List RSymbolV2 :=
  symbols.filter (fun s => decide (s.file = path))

/-- `Finder::find_global_variable`: exact-name match over all
`GlobalVariable` symbols. -/
def findGlobalVariable (symbols : List RSymbolV2) (name : String) : List RSymbolV2 :=
  (symbols.filter (fun s => decide (s.kind = RSymbolKind.GlobalVariable))).filter
    (fun s => decide (s.name = name))

/-- `Finder::find_constant` (`finder.rs` lines 289–338).
`constantScope` is `get_parent_scope_resolution(node, source)` (the
referenced path, sentinel-prefixed when written `::Foo`), `contextPrefix` is
`get_context_scope(node, source)` and `fileScopeOpt` the result of
`ruby_filename_converter.path_to_scope(file)` (`none` for `Err`). -/
def findConstant (symbols : List RSymbolV2) (file : String)
    (constantScope contextPrefix : Scope) (fileScopeOpt : Option Scope) : List RSymbolV2 :=
  let contextScope := contextPrefix.join constantScope
  let fileScope := ((fileScopeOpt.getD ⟨[]⟩).withoutLast).join constantScope
  let kindFiltered := symbols.filter
    (fun s => s.kind.isClasslike || decide (s.kind = RSymbolKind.Constant))
  if constantScope.isGlobal then
    kindFiltered.filter (fun s => decide (s.scope = constantScope))
  else
    let foundSymbols := kindFiltered.filter (fun s =>
      let name := s.scope.join (Scope.fromString s.name)
      decide (name = contextScope) || decide (name = fileScope) ||
        (decide (name = constantScope) && decide (s.file = file)))
    if foundSymbols.isEmpty then
      kindFiltered.filter (fun s => decide (s.scope.join (Scope.fromString s.name) = constantScope))
    else
      foundSymbols

/-- The sort key of `Finder::determine_context`:
`[s.end.row - s.start.row, s.end.column - s.start.column]` on `usize`, i.e.
wrapping subtraction modulo `2^64`, compared lexicographically. -/
def wrapSub (a b : Nat) : Nat :=
  (a + (2 ^ 64 - b % 2 ^ 64)) % 2 ^ 64

/-- Lexicographic order on the `determine_context` sort key. -/
def spanKeyLe (a b : RSymbolV2) : Prop :=
  wrapSub a.endPos.row a.start.row < wrapSub b.endPos.row b.start.row ∨
    (wrapSub a.endPos.row a.start.row = wrapSub b.endPos.row b.start.row ∧
      wrapSub a.endPos.column a.start.column ≤ wrapSub b.endPos.column b.start.column)

instance : DecidableRel spanKeyLe := fun a b => by unfold spanKeyLe; infer_instance

/-- `Finder::determine_context` (`finder.rs` lines 250–275): the symbols of
the file strictly containing the node's range, stably sorted by span size;
the first one, if any. -/
def determineContext (symbols : List RSymbolV2) (file : String)
    (nodeStart nodeEnd : Point) : Option RSymbolV2 :=
  (List.insertionSort spanKeyLe
    (symbols.filter (fun s =>
      decide (s.file = file) && decide (pointLt s.start nodeStart) &&
        decide (pointLt nodeEnd s.endPos)))).head?

/-- One capture of the assignment query of
`find_first_assignment_with_lhs_text_with_query`: the left-hand-side
identifier node of an `assignment` within the context node. -/
structure LhsNode where
  text : String
  startPos : Point
  endPos : Point
deriving DecidableEq, Repr

/-- Stable ascending order by `n.start_position()` used by
`sorted_by_key(|n| n.start_position())`. -/
def lhsStartLe (a b : LhsNode) : Prop :=
  pointLe a.startPos b.startPos

instance : DecidableRel lhsStartLe := fun a b => by unfold lhsStartLe; infer_instance

/-- `parsers_v2/identifiers.rs`:
`find_first_assignment_with_lhs_text_with_query`.  `captures` are the
left-hand-side identifier nodes of the tree-sitter query
`(assignment left: (identifier) @lhs (#eq @lhs <text>) right: (_))` run over
the context node, in tree order; the query's `#eq` text predicate is the
`text = identText` filter.  The code keeps the captures starting before the
identifier, sorts them by start position and takes the first — the earliest
such assignment. -/
def findFirstAssignmentWithLhsTextWithQuery (identText : String) (identStart : Point)
    (captures : List LhsNode) : Option LhsNode :=
  (List.insertionSort lhsStartLe
    (captures.filter (fun n =>
      decide (n.text = identText) && decide (pointLt n.startPos identStart)))).head?

/-- The shape of the receiver of the call node enclosing an identifier, as
`find_identifier` classifies it: no receiver, `self`, a
constant/scope-resolution (with its `get_full_scope_resolution`), some other
recognized node kind, or a kind the `NodeKind` conversion rejects. -/
inductive ReceiverInfo where
  | noReceiver
  | zelf
  | constantLike (scope : Scope)
  | otherKnown
  | unknownKind
deriving Repr

/-- `Finder::find_method_in_scope` (`finder.rs` lines 340–359). -/
def findMethodInScope (symbols : List RSymbolV2) (methodName : String)
    (scope : Scope) (singleton : Bool) : List RSymbolV2 :=
  ((symbols.filter (fun s => decide (s.scope = scope))).filter
    (fun s => if singleton then s.kind.isSingletonMethod else s.kind.isInstanceMethod)).filter
    (fun s => decide (s.name = methodName))

/-- Stable order by the key `!s.file.starts_with(root_dir)` (`false < true`,
so project-root symbols come first) of the unsupported-receiver fallback. -/
def notInRootLe (rootDir : String) (a b : RSymbolV2) : Prop :=
  (!String.isPrefixOf rootDir a.file) = true → (!String.isPrefixOf rootDir b.file) = true

instance (rootDir : String) : DecidableRel (notInRootLe rootDir) := fun a b => by
  unfold notInRootLe; infer_instance

/-- The unsupported-receiver fallback of `find_identifier`: a global search
by name and method kind, project-root symbols ranked first. -/
def globalMethodFallback (symbols : List RSymbolV2) (rootDir : String)
    (identText : String) (singleton : Bool) : List RSymbolV2 :=
  List.insertionSort (notInRootLe rootDir)
    ((symbols.filter (fun s => decide (s.name = identText))).filter
      (fun s => if singleton then s.kind.isSingletonMethod else s.kind.isInstanceMethod))

/-- The `SingletonMethod | InstanceMethod` branch of `find_identifier`
(`finder.rs` lines 114–240): local assignment first, then a parameter of the
same name, then call-receiver dispatch, then instance then class
variables/methods.  `none` models a panic. -/
def findIdentifierMethodCase (symbols : List RSymbolV2) (rootDir file : String)
    (identText : String) (identStart : Point) (scopeSym : RSymbolV2)
    (parameters : List RMethodParamV2) (captures : List LhsNode)
    (callCtx : Option ReceiverInfo) : Option (List RSymbolV2) :=
  match findFirstAssignmentWithLhsTextWithQuery identText identStart captures with
  | some defNode =>
      some [RSymbolV2.mk RSymbolKind.Variable identText scopeSym.scope file
        defNode.startPos defNode.endPos (some scopeSym)]
  | none =>
    match parameters.find? (fun p => decide (p.name = identText)) with
    | some param =>
        some [RSymbolV2.mk RSymbolKind.Variable identText scopeSym.scope file
          param.start param.endPos (some scopeSym)]
    | none =>
      match callCtx with
      | some receiver =>
        let isSingletonContext := scopeSym.kind.isSingletonMethod
        match receiver with
        | .noReceiver =>
            some (findMethodInScope symbols identText scopeSym.scope isSingletonContext)
        | .unknownKind => some []
        | .zelf =>
            some (findMethodInScope symbols identText scopeSym.scope isSingletonContext)
        | .constantLike constantScope =>
            some (findMethodInScope symbols identText constantScope isSingletonContext)
        | .otherKnown =>
            some (globalMethodFallback symbols rootDir identText isSingletonContext)
      | none =>
        let instanceMatches := ((symbols.filter (fun s =>
            decide (s.kind = RSymbolKind.InstanceVariable) || s.kind.isInstanceMethod)).filter
            (fun s => decide (s.scope = scopeSym.scope))).filter
            (fun s => decide (s.name = identText))
        if !instanceMatches.isEmpty then some instanceMatches
        else
          let classMatches := (symbols.filter (fun s =>
              decide (s.kind = RSymbolKind.ClassVariable) || s.kind.isSingletonMethod)).filter
              (fun s => decide (s.name = identText))
          if !classMatches.isEmpty then some classMatches
          else some []

/-- `Finder::find_identifier` (`finder.rs` lines 82–248).  Determines the
enclosing scope symbol with `determine_context` and dispatches on its kind:
a missing context logs an error and returns the empty list; a `Class` or
`Module` context hits `todo!()` — modelled as `none` (a panic); other
non-method kinds log an error and return the empty list.  `callCtx` is
`some r` when the identifier's parent node is a `call`, with `r` the shape
of that call's receiver. -/
def findIdentifier (symbols : List RSymbolV2) (rootDir file : String)
    (identText : String) (identStart identEnd : Point) (captures : List LhsNode)
    (callCtx : Option ReceiverInfo) : Option (List RSymbolV2) :=
  match determineContext symbols file identStart identEnd with
  | none => some []
  | some scopeSym =>
    match scopeSym.kind with
    | .Class _ => none
    | .Module _ => none
    | .SingletonMethod parameters =>
        findIdentifierMethodCase symbols rootDir file identText identStart scopeSym
          parameters captures callCtx
    | .InstanceMethod parameters =>
        findIdentifierMethodCase symbols rootDir file identText identStart scopeSym
          parameters captures callCtx
    | _ => some []

/-! ## `symbols_matcher.rs`: the ranked fuzzy matcher

`SymbolsMatcher::match_symbols` scores each symbol's name against the query
with the external `fuzzy_matcher` crate (`SkimMatcherV2::fuzzy_indices`,
returning an `i64` score and the matched byte indices), drops non-matches,
and stably sorts the rest descending by a five-component `[i32; 5]` key.
The external matcher is the parameter `fuzzy`. -/

/-- `lsp_types::SymbolInformation` as `match_symbols` consumes it: the name
and the file path of `location.uri`, modelled as path components. -/
structure SymbolInformation where
  name : String
  path : List String
deriving DecidableEq, Repr

/-- Rust's truncating `as i32` cast on an integer value. -/
def asI32 (n : Int) : Int :=
  (n + 2 ^ 31) % 2 ^ 32 - 2 ^ 31

/-- The `[i32; 5]` ranking key of `match_symbols`. -/
abbrev MatchRank := Int × Int × Int × Int × Int

/-- The derived lexicographic `≤` on the `[i32; 5]` ranking key. -/
def rankLe (a b : MatchRank) : Prop :=
  a.1 < b.1 ∨ (a.1 = b.1 ∧
    (a.2.1 < b.2.1 ∨ (a.2.1 = b.2.1 ∧
      (a.2.2.1 < b.2.2.1 ∨ (a.2.2.1 = b.2.2.1 ∧
        (a.2.2.2.1 < b.2.2.2.1 ∨ (a.2.2.2.1 = b.2.2.2.1 ∧
          a.2.2.2.2 ≤ b.2.2.2.2)))))))

instance : DecidableRel rankLe := fun a b => by unfold rankLe; infer_instance

/-- The body of the `filter_map` of `match_symbols`: score one symbol,
keeping it with its ranking key
`[score as i32, in_root, -(start as i32), -(end as i32), -(len as i32)]`. -/
def computeRank (fuzzy : String → String → Option (Int × List Nat))
    (rootPath : List String) (query : String) (s : SymbolInformation) :
    Option (SymbolInformation × MatchRank) :=
  match fuzzy s.name query with
  | none => none
  | some (score, indices) =>
    let startIdx := indices.head?.getD 0
    let endIdx := indices.getLast?.getD 0
    let len := s.name.utf8ByteSize
    let inRoot : Int := if rootPath.isPrefixOf s.path then 1 else -1
    some (s, (asI32 score, inRoot, -(asI32 startIdx), -(asI32 endIdx), -(asI32 len)))

/-- `scores.sort_by_key(|m| Reverse(m.1))`: a stable sort ascending in
`Reverse(rank)`, i.e. stable descending in the rank itself. -/
def scoredGe (a b : SymbolInformation × MatchRank) : Prop :=
  rankLe b.2 a.2

instance : DecidableRel scoredGe := fun a b => by unfold scoredGe; infer_instance

/-- `SymbolsMatcher::match_symbols` (`symbols_matcher.rs` lines 22–55). -/
def matchSymbols (fuzzy : String → String → Option (Int × List Nat))
    (rootPath : List String) (query : String) (symbols : List SymbolInformation) :
    List SymbolInformation :=
  let scores := symbols.filterMap (computeRank fuzzy rootPath query)
  (List.insertionSort scoredGe scores).map Prod.fst

/-! ## `parsers_v2`: the symbol graph builders -/

/-- `parsers_v2/constants.rs`: `parse_constant`, at a `constant` node with
the given text and range.  The symbol's scope is the parent's qualified
scope (`parent.scope.join(parent.name)`), empty without a parent. -/
def parseConstant (file name : String) (nodeStart nodeEnd : Point)
    (parent : Option RSymbolV2) : RSymbolV2 :=
  let parentScope := match parent with
    | none => (⟨[]⟩ : Scope)
    | some parentSymbol => parentSymbol.scope.join (Scope.fromString parentSymbol.name)
  RSymbolV2.mk RSymbolKind.Constant name parentScope file nodeStart nodeEnd parent

/-- `parsers_v2/methods.rs`: `parse_method`.  `name`/`nameStart` come from
the method node's `name` field, `parameters` from its parameter nodes,
`nodeEnd` is the method node's end.  The scope is the parent's qualified
scope only when the parent is classlike. -/
def parseMethod (file name : String) (parameters : List RMethodParamV2)
    (nameStart nodeEnd : Point) (parent : Option RSymbolV2) : RSymbolV2 :=
  let parentScope := match parent with
    | none => (⟨[]⟩ : Scope)
    | some parentSymbol =>
        if parentSymbol.kind.isClasslike then
          parentSymbol.scope.join (Scope.fromString parentSymbol.name)
        else
          (⟨[]⟩ : Scope)
  RSymbolV2.mk (RSymbolKind.InstanceMethod parameters) name parentScope file
    nameStart nodeEnd parent

/-- `parsers_v2/methods.rs`: `parse_singleton_method` — `parse_method`, then
the kind rewritten to `SingletonMethod` with the same parameters (the
non-`InstanceMethod` arm of the Rust `match` is `unreachable!()`). -/
def parseSingletonMethod (file name : String) (parameters : List RMethodParamV2)
    (nameStart nodeEnd : Point) (parent : Option RSymbolV2) : RSymbolV2 :=
  match parseMethod file name parameters nameStart nodeEnd parent with
  | .mk (RSymbolKind.InstanceMethod ps) n sc f st en pa =>
      .mk (RSymbolKind.SingletonMethod ps) n sc f st en pa
  | other => other

/-- An argument node of a `call` node's `arguments` field. -/
structure ArgNode where
  text : String
  startPos : Point
  endPos : Point
deriving DecidableEq, Repr

/-- The declarative method names `parse_call` recognizes. -/
def declarativeMethodNames : List String :=
  ["attr_accessor", "attr_reader", "attr_writer", "delegate", "belongs_to",
   "has_one", "has_many"]

/-- `var_name.replace(':', "")`: remove every `':'` character. -/
def removeColons (s : String) : String :=
  ⟨s.data.filter (fun c => decide (c ≠ ':'))⟩

/-- `parsers_v2/calls.rs`: `parse_call` (lines 8–47), as its caller
`parsers_v2/general.rs` observes it (`parse_call(..).unwrap_or(Vec::default())`,
so the Rust `None` returns become the empty symbol list).  `args` is `none`
when the call node has no `arguments` field, otherwise the argument nodes.
The result `none` models the `args.child(0).unwrap()` panic on an empty
arguments node. -/
def parseCall (methodName : String) (args : Option (List ArgNode)) (file : String)
    (parent : Option RSymbolV2) : Option (List RSymbolV2) :=
  match args with
  | none => some []
  | some argList =>
    if methodName ∈ declarativeMethodNames then
      match argList with
      | [] => none
      | firstChild :: _ =>
        let varName := removeColons firstChild.text
        let scope := match parent with
          | some p => p.scope.join (Scope.fromString p.name)
          | none => (⟨[]⟩ : Scope)
        some [RSymbolV2.mk RSymbolKind.InstanceVariable varName scope file
          firstChild.startPos firstChild.endPos parent]
    else
      some []

/-! ## `indexer.rs`: directory indexing and the file index -/

/-- One `walkdir` directory entry, with its path and the
`path().extension()` the filter reads. -/
structure DirEntry where
  path : String
  extension : String
  isDir : Bool
deriving DecidableEq, Repr

/-- `Indexer::index_dir` (`indexer.rs` lines 475–493, `indexer_v2.rs` lines
281–299): walk entries (`none` is a walk error, dropped by
`filter_map(Result::ok)`), keep non-directory `.rb` files, and index each
with `index_file_cursor`, whose `Result` is `.unwrap()`-ed — a single failed
read or parse (`indexFileCursor` returning `none`) panics the whole walk,
modelled as the `none` result. -/
def indexDir (indexFileCursor : String → Option (List RSymbolV2))
    (walkEntries : List (Option DirEntry)) : Option (List RSymbolV2) :=
  let files := ((walkEntries.filterMap id).filter
    (fun e => !e.isDir && decide (e.extension = "rb"))).map DirEntry.path
  (files.mapM indexFileCursor).map List.flatten

/-- The consecutive grouping of `itertools`' `group_by(|s| s.file())` used
by `build_file_index`: maximal runs of adjacent symbols with the same file. -/
def groupByFile : List RSymbolV2 → List (String × List RSymbolV2)
  | [] => []
  | s :: rest =>
    match groupByFile rest with
    | [] => [(s.file, [s])]
    | (k, g) :: t =>
      if s.file = k then (k, s :: g) :: t else (s.file, [s]) :: (k, g) :: t

/-- `HashMap` insertion: replace the value of an existing key, otherwise add
the pair. -/
def hashMapInsert (m : List (String × List RSymbolV2)) (k : String)
    (v : List RSymbolV2) : List (String × List RSymbolV2) :=
  if m.any (fun p => decide (p.1 = k)) then
    m.map (fun p => if p.1 = k then (k, v) else p)
  else
    m ++ [(k, v)]

/-- `collect::<HashMap<_, _>>()` over key/value pairs: later pairs with the
same key overwrite earlier ones. -/
def hashMapFromPairs (l : List (String × List RSymbolV2)) :
    List (String × List RSymbolV2) :=
  l.foldl (fun m p => hashMapInsert m p.1 p.2) []

/-- `Indexer::build_file_index` (`indexer.rs` lines 465–473): group the
symbol list by file with `group_by` and collect the groups into a map. -/
def buildFileIndex (symbols : List RSymbolV2) : List (String × List RSymbolV2) :=
  hashMapFromPairs (groupByFile symbols)

/-- `Indexer::file_symbols` (`indexer.rs` lines 223–225): the map lookup. -/
def fileSymbols (symbols : List RSymbolV2) (file : String) : Option (List RSymbolV2) :=
  ((buildFileIndex symbols).find? (fun p => decide (p.1 = file))).map Prod.snd

/-! ## Shared helper definitions and lemmas -/

/-- `parent.map(|p| p.scope.join(&(&p.name).into())).unwrap_or(Scope::default())`:
the qualified scope of an optional parent symbol. -/
def parentQualifiedScope (parent : Option RSymbolV2) : Scope :=
  match parent with
  | none => (⟨[]⟩ : Scope)
  | some p => p.scope.join (Scope.fromString p.name)

theorem lhsStartLe_refl (a : LhsNode) : lhsStartLe a a := by
  unfold lhsStartLe pointLe; omega

instance : IsTotal LhsNode lhsStartLe :=
  ⟨by intro a b; unfold lhsStartLe pointLe; omega⟩

instance : IsTrans LhsNode lhsStartLe :=
  ⟨by intro a b c; unfold lhsStartLe pointLe; omega⟩

theorem rankLe_total (a b : MatchRank) : rankLe a b ∨ rankLe b a := by
  obtain ⟨a1, a2, a3, a4, a5⟩ := a
  obtain ⟨b1, b2, b3, b4, b5⟩ := b
  unfold rankLe; dsimp only; omega

theorem rankLe_trans {a b c : MatchRank} (hab : rankLe a b) (hbc : rankLe b c) :
    rankLe a c := by
  obtain ⟨a1, a2, a3, a4, a5⟩ := a
  obtain ⟨b1, b2, b3, b4, b5⟩ := b
  obtain ⟨c1, c2, c3, c4, c5⟩ := c
  unfold rankLe at *; dsimp only at *; omega

instance : IsTotal (SymbolInformation × MatchRank) scoredGe :=
  ⟨fun a b => by unfold scoredGe; exact rankLe_total b.2 a.2⟩

instance : IsTrans (SymbolInformation × MatchRank) scoredGe :=
  ⟨fun a b c hab hbc => by unfold scoredGe at *; exact rankLe_trans hbc hab⟩

/-! ## Claim C2: absolute-reference resolution -/

/-- A top-level constant `Foo` as `parse_constant` builds it for an
assignment `Foo = ...` with no enclosing class or module: empty scope. -/
def c2TopLevelFoo : RSymbolV2 :=
  parseConstant "app/foo.rb" "Foo" ⟨0, 0⟩ ⟨0, 3⟩ none

/-- C2: the absolute branch of `Finder::find_constant` filters on
`s.scope == constant_scope` where `constant_scope` still carries the
`$GLOBAL` sentinel, so a reference `::Foo` fails to match the top-level
constant `Foo` (whose scope is empty), and the lookup returns nothing: the
code contradicts the claim that a top-level `Foo` is returned when one
exists in the index. -/
theorem c2_absolute_reference_misses_top_level :
    findConstant [c2TopLevelFoo] "app/foo.rb"
        ⟨[GLOBAL_SCOPE_VALUE, "Foo"]⟩ ⟨[]⟩ none = []
    ∧ (Scope.mk [GLOBAL_SCOPE_VALUE, "Foo"]).isGlobal = true
    ∧ c2TopLevelFoo.scope = ⟨[]⟩
    ∧ c2TopLevelFoo.name = "Foo"
    ∧ c2TopLevelFoo.kind = RSymbolKind.Constant
    ∧ c2TopLevelFoo.file = "app/foo.rb" :=
  ⟨rfl, rfl, rfl, rfl, rfl, rfl⟩

/-! ## Claim C5: scope sentinel stripping -/

/-- C5 counterexample: the derived `PartialEq` of `Scope` compares the raw
segment vectors, so the global scope `[$GLOBAL, "A"]` does *not* compare
equal to the non-global scope `["A"]` even though its remaining segments
after the sentinel are exactly `["A"]` — the sentinel is not stripped before
comparison. -/
theorem c5_counterexample :
    (Scope.mk [GLOBAL_SCOPE_VALUE, "A"]).scopes.drop 1 = (Scope.mk ["A"]).scopes
    ∧ Scope.mk [GLOBAL_SCOPE_VALUE, "A"] ≠ Scope.mk ["A"] := by
  constructor
  · rfl
  · decide

/-- C5 (amended): rendering a global scope strips the leading sentinel
(`Display for Scope` joins only the segments after it), but comparison does
not strip it: scope equality is plain segment-wise vector equality, so a
global scope is never equal to any non-global scope. -/
theorem c5_sentinel_stripping (segs : List String) :
    (Scope.mk (GLOBAL_SCOPE_VALUE :: segs)).render =
        String.intercalate SCOPE_DELIMITER segs
    ∧ ∀ other : Scope, other.isGlobal = false →
        Scope.mk (GLOBAL_SCOPE_VALUE :: segs) ≠ other := by
  constructor
  · simp [Scope.render, Scope.isGlobal]
  · intro other hother heq
    have : (Scope.mk (GLOBAL_SCOPE_VALUE :: segs)).isGlobal = false := heq ▸ hother
    simp [Scope.isGlobal] at this

/-- C5 witness: the amended statement at the concrete global scope
`[$GLOBAL, "A"]` and the non-global scope `["A"]`. -/
theorem c5_witness :
    (Scope.mk [GLOBAL_SCOPE_VALUE, "A"]).render =
        String.intercalate SCOPE_DELIMITER ["A"]
    ∧ Scope.mk [GLOBAL_SCOPE_VALUE, "A"] ≠ Scope.mk ["A"] :=
  ⟨(c5_sentinel_stripping ["A"]).1,
   (c5_sentinel_stripping ["A"]).2 (Scope.mk ["A"]) rfl⟩

/-! ## Claim C8: the method scope rule -/

/-- C8: a method or singleton-method symbol built by `parse_method` /
`parse_singleton_method` has the parent's qualified scope
(`parent.scope.join(parent.name)`) exactly when the parent is classlike, and
the empty scope when there is no parent or the parent is not classlike. -/
theorem c8_method_scope_rule (file name : String) (parameters : List RMethodParamV2)
    (nameStart nodeEnd : Point) (parent : Option RSymbolV2) :
    (parent = none →
      (parseMethod file name parameters nameStart nodeEnd parent).scope = ⟨[]⟩
      ∧ (parseSingletonMethod file name parameters nameStart nodeEnd parent).scope = ⟨[]⟩)
    ∧ (∀ p, parent = some p → p.kind.isClasslike = true →
        (parseMethod file name parameters nameStart nodeEnd parent).scope =
          p.scope.join (Scope.fromString p.name)
        ∧ (parseSingletonMethod file name parameters nameStart nodeEnd parent).scope =
          p.scope.join (Scope.fromString p.name))
    ∧ (∀ p, parent = some p → p.kind.isClasslike = false →
        (parseMethod file name parameters nameStart nodeEnd parent).scope = ⟨[]⟩
        ∧ (parseSingletonMethod file name parameters nameStart nodeEnd parent).scope = ⟨[]⟩)
    ∧ (parseMethod file name parameters nameStart nodeEnd parent).kind =
        RSymbolKind.InstanceMethod parameters
    ∧ (parseSingletonMethod file name parameters nameStart nodeEnd parent).kind =
        RSymbolKind.SingletonMethod parameters := by
  refine ⟨?_, ?_, ?_, ?_, ?_⟩
  · rintro rfl
    exact ⟨rfl, rfl⟩
  · rintro p rfl hcl
    constructor
    · simp [parseMethod, RSymbolV2.scope, hcl]
    · simp [parseSingletonMethod, parseMethod, RSymbolV2.scope, hcl]
  · rintro p rfl hcl
    constructor
    · simp [parseMethod, RSymbolV2.scope, hcl]
    · simp [parseSingletonMethod, parseMethod, RSymbolV2.scope, hcl]
  · cases parent with
    | none => rfl
    | some p =>
      by_cases hcl : p.kind.isClasslike = true
      · simp [parseMethod, RSymbolV2.kind, hcl]
      · simp [parseMethod, RSymbolV2.kind, hcl]
  · cases parent with
    | none => rfl
    | some p =>
      by_cases hcl : p.kind.isClasslike = true
      · simp [parseSingletonMethod, parseMethod, RSymbolV2.kind, hcl]
      · simp [parseSingletonMethod, parseMethod, RSymbolV2.kind, hcl]

/-- A classlike parent for the C8 witness: `module A` nested under scope
`["Outer"]`. -/
def c8Parent : RSymbolV2 :=
  RSymbolV2.mk (RSymbolKind.Module ⟨[]⟩) "A" ⟨["Outer"]⟩ "a.rb" ⟨0, 7⟩ ⟨9, 3⟩ none

/-- C8 witness: the scope rule applied at a concrete classlike parent. -/
theorem c8_witness :
    (parseMethod "a.rb" "foo" [] ⟨1, 6⟩ ⟨3, 5⟩ (some c8Parent)).scope =
      c8Parent.scope.join (Scope.fromString c8Parent.name)
    ∧ (parseSingletonMethod "a.rb" "foo" [] ⟨1, 6⟩ ⟨3, 5⟩ (some c8Parent)).scope =
      c8Parent.scope.join (Scope.fromString c8Parent.name) :=
  (c8_method_scope_rule "a.rb" "foo" [] ⟨1, 6⟩ ⟨3, 5⟩ (some c8Parent)).2.1
    c8Parent rfl rfl

/-! ## Claim C10: declarative-call synthesis -/

/-- C10: for a call whose method name is one of the declarative generators
and that has an arguments node with a first argument, `parse_call` emits
exactly one `InstanceVariable` symbol named after the first argument's text
with every `':'` removed (so the name holds no colon), scoped to the
enclosing parent's qualified scope (empty without a parent); a recognized
call with no arguments node, and a call with any other method name, emits no
symbol. -/
theorem c10_parse_call (methodName file : String) (firstArg : ArgNode)
    (rest : List ArgNode) (parent : Option RSymbolV2) :
    (methodName ∈ declarativeMethodNames →
      parseCall methodName (some (firstArg :: rest)) file parent =
        some [RSymbolV2.mk RSymbolKind.InstanceVariable (removeColons firstArg.text)
          (parentQualifiedScope parent) file firstArg.startPos firstArg.endPos parent]
      ∧ ':' ∉ (removeColons firstArg.text).data)
    ∧ parseCall methodName none file parent = some []
    ∧ (methodName ∉ declarativeMethodNames → ∀ args : List ArgNode,
        parseCall methodName (some args) file parent = some []) := by
  refine ⟨?_, rfl, ?_⟩
  · intro hmem
    constructor
    · simp only [parseCall, if_pos hmem]
      cases parent <;> simp [parentQualifiedScope]
    · intro hcolon
      simp only [removeColons, List.mem_filter, decide_eq_true_eq] at hcolon
      exact hcolon.2 rfl
  · intro hmem args
    simp [parseCall, hmem]

/-- C10 witness: `attr_accessor :foo` inside `module A` synthesizes the
instance variable `foo` (colon stripped) scoped to the parent's qualified
scope. -/
theorem c10_witness :
    parseCall "attr_accessor" (some [⟨":foo", ⟨1, 14⟩, ⟨1, 18⟩⟩]) "a.rb" (some c8Parent) =
      some [RSymbolV2.mk RSymbolKind.InstanceVariable (removeColons ":foo")
        (parentQualifiedScope (some c8Parent)) "a.rb" ⟨1, 14⟩ ⟨1, 18⟩ (some c8Parent)]
    ∧ ':' ∉ (removeColons ":foo").data :=
  (c10_parse_call "attr_accessor" "a.rb" ⟨":foo", ⟨1, 14⟩, ⟨1, 18⟩⟩ [] (some c8Parent)).1
    (by decide)

/-! ## Claim C7: identifier lookup outside a method -/

/-- A class symbol enclosing the identifier, for the C7 input. -/
def c7ClassSymbol : RSymbolV2 :=
  RSymbolV2.mk (RSymbolKind.Class ⟨[]⟩) "Foo" ⟨["Foo"]⟩ "a.rb" ⟨0, 6⟩ ⟨5, 3⟩ none

/-- C7 counterexample: when the enclosing scope symbol is a bare class,
`find_identifier` hits the `todo!()` arm and panics (modelled as `none`)
instead of returning the empty candidate list the claim promises. -/
theorem c7_counterexample :
    findIdentifier [c7ClassSymbol] "" "a.rb" "x" ⟨1, 2⟩ ⟨1, 3⟩ [] none = none
    ∧ (some ([] : List RSymbolV2) : Option (List RSymbolV2)) ≠ none := by
  exact ⟨rfl, by simp⟩

/-- C7 (amended): when no enclosing scope symbol is found,
`find_identifier` returns the empty candidate list without failing; but when
the enclosing symbol is a bare class or module, it panics (`todo!()`),
modelled as `none`; any other non-method enclosing kind again yields the
empty list. -/
theorem c7_identifier_outside_method (symbols : List RSymbolV2)
    (rootDir file identText : String) (identStart identEnd : Point)
    (captures : List LhsNode) (callCtx : Option ReceiverInfo) :
    (determineContext symbols file identStart identEnd = none →
      findIdentifier symbols rootDir file identText identStart identEnd captures callCtx
        = some [])
    ∧ (∀ scopeSym, determineContext symbols file identStart identEnd = some scopeSym →
        scopeSym.kind.isClasslike = true →
        findIdentifier symbols rootDir file identText identStart identEnd captures callCtx
          = none)
    ∧ (∀ scopeSym, determineContext symbols file identStart identEnd = some scopeSym →
        scopeSym.kind.isClasslike = false →
        scopeSym.kind.isInstanceMethod = false →
        scopeSym.kind.isSingletonMethod = false →
        findIdentifier symbols rootDir file identText identStart identEnd captures callCtx
          = some []) := by
  refine ⟨?_, ?_, ?_⟩
  · intro h
    simp [findIdentifier, h]
  · intro scopeSym h hcl
    cases hk : scopeSym.kind <;>
      simp_all [findIdentifier, h, RSymbolKind.isClasslike]
  · intro scopeSym h hcl him hsm
    cases hk : scopeSym.kind <;>
      simp_all [findIdentifier, h, RSymbolKind.isClasslike,
        RSymbolKind.isInstanceMethod, RSymbolKind.isSingletonMethod]

/-- C7 witness: an empty index (no enclosing symbol) yields the empty list,
and the concrete class context yields the modelled panic. -/
theorem c7_witness :
    findIdentifier [] "" "a.rb" "x" ⟨1, 2⟩ ⟨1, 3⟩ [] none = some []
    ∧ findIdentifier [c7ClassSymbol] "" "a.rb" "x" ⟨1, 2⟩ ⟨1, 3⟩ [] none = none :=
  ⟨(c7_identifier_outside_method [] "" "a.rb" "x" ⟨1, 2⟩ ⟨1, 3⟩ [] none).1 rfl,
   (c7_identifier_outside_method [c7ClassSymbol] "" "a.rb" "x" ⟨1, 2⟩ ⟨1, 3⟩ [] none).2.1
     c7ClassSymbol rfl rfl⟩

/-! ## Claim C3: identifier resolution priority inside a method -/

/-- What `find_first_assignment_with_lhs_text_with_query` returns: nothing
when no same-named capture precedes the identifier, and otherwise the
capture with the *least* start position among them. -/
theorem findFirstAssignment_spec (identText : String) (identStart : Point)
    (captures : List LhsNode) :
    (captures.filter (fun n =>
        decide (n.text = identText) && decide (pointLt n.startPos identStart)) = [] →
      findFirstAssignmentWithLhsTextWithQuery identText identStart captures = none)
    ∧ (captures.filter (fun n =>
        decide (n.text = identText) && decide (pointLt n.startPos identStart)) ≠ [] →
      ∃ d, findFirstAssignmentWithLhsTextWithQuery identText identStart captures = some d
        ∧ d ∈ captures.filter (fun n =>
            decide (n.text = identText) && decide (pointLt n.startPos identStart))
        ∧ ∀ x ∈ captures.filter (fun n =>
            decide (n.text = identText) && decide (pointLt n.startPos identStart)),
            lhsStartLe d x) := by
  set matching := captures.filter (fun n =>
    decide (n.text = identText) && decide (pointLt n.startPos identStart)) with hm
  have hperm := List.perm_insertionSort lhsStartLe matching
  have hsorted := List.sorted_insertionSort lhsStartLe matching
  constructor
  · intro h
    rw [findFirstAssignmentWithLhsTextWithQuery, ← hm, h]
    rfl
  · intro h
    rw [findFirstAssignmentWithLhsTextWithQuery, ← hm]
    cases hs : List.insertionSort lhsStartLe matching with
    | nil =>
      have hnil : List.Perm ([] : List LhsNode) matching := hs ▸ hperm
      exact absurd hnil.symm.eq_nil h
    | cons d t =>
      refine ⟨d, rfl, ?_, ?_⟩
      · exact hperm.mem_iff.mp (hs ▸ List.mem_cons_self d t)
      · intro x hx
        have hx' : x ∈ d :: t := hs ▸ hperm.symm.mem_iff.mp hx
        rcases List.mem_cons.mp hx' with hxe | hxt
        · exact hxe ▸ lhsStartLe_refl d
        · exact List.rel_of_sorted_cons (hs ▸ hsorted) x hxt

/-- C3 (amended): inside a method, when one or more same-named assignments
precede the reference, `find_definition` returns the location of the
*earliest* (first) such assignment in the method body — not the closest
preceding one — and not the parameter; the parameter of the same name is
returned only when no preceding assignment exists. -/
theorem c3_identifier_assignment_priority
    (symbols : List RSymbolV2) (rootDir file identText : String)
    (identStart identEnd : Point) (captures : List LhsNode)
    (callCtx : Option ReceiverInfo) (scopeSym : RSymbolV2)
    (parameters : List RMethodParamV2)
    (hctx : determineContext symbols file identStart identEnd = some scopeSym)
    (hkind : scopeSym.kind = RSymbolKind.InstanceMethod parameters ∨
             scopeSym.kind = RSymbolKind.SingletonMethod parameters) :
    (captures.filter (fun n =>
        decide (n.text = identText) && decide (pointLt n.startPos identStart)) ≠ [] →
      ∃ d, d ∈ captures ∧ d.text = identText ∧ pointLt d.startPos identStart
        ∧ (∀ x ∈ captures, x.text = identText → pointLt x.startPos identStart →
            pointLe d.startPos x.startPos)
        ∧ findIdentifier symbols rootDir file identText identStart identEnd captures callCtx
          = some [RSymbolV2.mk RSymbolKind.Variable identText scopeSym.scope file
              d.startPos d.endPos (some scopeSym)])
    ∧ (captures.filter (fun n =>
        decide (n.text = identText) && decide (pointLt n.startPos identStart)) = [] →
      ∀ p, parameters.find? (fun q => decide (q.name = identText)) = some p →
        findIdentifier symbols rootDir file identText identStart identEnd captures callCtx
          = some [RSymbolV2.mk RSymbolKind.Variable identText scopeSym.scope file
              p.start p.endPos (some scopeSym)]) := by
  have hfi : findIdentifier symbols rootDir file identText identStart identEnd captures callCtx
      = findIdentifierMethodCase symbols rootDir file identText identStart scopeSym
          parameters captures callCtx := by
    rcases hkind with hk | hk <;> · simp only [findIdentifier, hctx, hk]
  constructor
  · intro hne
    obtain ⟨d, hsome, hdmem, hdmin⟩ :=
      (findFirstAssignment_spec identText identStart captures).2 hne
    have hd := List.mem_filter.mp hdmem
    have hdtext : d.text = identText := by
      have := hd.2
      simp only [Bool.and_eq_true, decide_eq_true_eq] at this
      exact this.1
    have hdlt : pointLt d.startPos identStart := by
      have := hd.2
      simp only [Bool.and_eq_true, decide_eq_true_eq] at this
      exact this.2
    refine ⟨d, hd.1, hdtext, hdlt, ?_, ?_⟩
    · intro x hx hxt hxl
      have : x ∈ captures.filter (fun n =>
          decide (n.text = identText) && decide (pointLt n.startPos identStart)) :=
        List.mem_filter.mpr ⟨hx, by simp [hxt, hxl]⟩
      exact hdmin x this
    · rw [hfi]
      simp only [findIdentifierMethodCase, hsome]
  · intro hemp p hp
    rw [hfi]
    simp only [findIdentifierMethodCase,
      (findFirstAssignment_spec identText identStart captures).1 hemp, hp]

/-- The enclosing method for the C3 input: `def foo(x)` spanning rows 0–5
with a `Regular` parameter `x` at row 0. -/
def c3MethodSymbol : RSymbolV2 :=
  RSymbolV2.mk (RSymbolKind.InstanceMethod [⟨.Regular, "m.rb", "x", ⟨0, 8⟩, ⟨0, 9⟩⟩])
    "foo" ⟨["A"]⟩ "m.rb" ⟨0, 4⟩ ⟨5, 3⟩ none

/-- The assignment query captures for the C3 input: two assignments to `x`,
at rows 1 and 2, both before the reference at row 3. -/
def c3Captures : List LhsNode :=
  [⟨"x", ⟨1, 2⟩, ⟨1, 3⟩⟩, ⟨"x", ⟨2, 2⟩, ⟨2, 3⟩⟩]

/-- C3 counterexample: with two assignments `x = ...` preceding the
reference (rows 1 and 2) and a parameter `x`, the code returns the location
of the row-1 assignment — the *earliest* — while the claim demands the
closest preceding one, at row 2. -/
theorem c3_counterexample :
    findIdentifier [c3MethodSymbol] "" "m.rb" "x" ⟨3, 2⟩ ⟨3, 3⟩ c3Captures none
      = some [RSymbolV2.mk RSymbolKind.Variable "x" ⟨["A"]⟩ "m.rb" ⟨1, 2⟩ ⟨1, 3⟩
          (some c3MethodSymbol)]
    ∧ (⟨"x", ⟨2, 2⟩, ⟨2, 3⟩⟩ : LhsNode) ∈ c3Captures
    ∧ pointLt ⟨2, 2⟩ ⟨3, 2⟩
    ∧ pointLt ⟨1, 2⟩ ⟨2, 2⟩
    ∧ (⟨1, 2⟩ : Point) ≠ ⟨2, 2⟩ :=
  ⟨rfl, by decide, by decide, by decide, by decide⟩

/-- C3 witness: the amended statement at the concrete method, captures and
reference of the counterexample — the earliest preceding assignment (and
not the parameter) is returned. -/
theorem c3_witness :
    ∃ d : LhsNode, d ∈ c3Captures ∧ d.text = "x" ∧ pointLt d.startPos ⟨3, 2⟩
      ∧ (∀ x ∈ c3Captures, x.text = "x" → pointLt x.startPos ⟨3, 2⟩ →
          pointLe d.startPos x.startPos)
      ∧ findIdentifier [c3MethodSymbol] "" "m.rb" "x" ⟨3, 2⟩ ⟨3, 3⟩ c3Captures none
        = some [RSymbolV2.mk RSymbolKind.Variable "x" c3MethodSymbol.scope "m.rb"
            d.startPos d.endPos (some c3MethodSymbol)] :=
  (c3_identifier_assignment_priority [c3MethodSymbol] "" "m.rb" "x" ⟨3, 2⟩ ⟨3, 3⟩
      c3Captures none c3MethodSymbol [⟨.Regular, "m.rb", "x", ⟨0, 8⟩, ⟨0, 9⟩⟩]
      rfl (Or.inl rfl)).1 (by decide)

/-! ## Claim C6: per-file failure isolation -/

/-- An `Option`-monad `mapM` fails exactly when one element fails:
the shape of `flat_map(|entry| index_file_cursor(..).unwrap())`. -/
theorem mapM_option_eq_none_iff (f : String → Option (List RSymbolV2))
    (l : List String) :
    l.mapM f = none ↔ ∃ x ∈ l, f x = none := by
  induction l with
  | nil => rw [List.mapM_nil]; simp
  | cons a t ih =>
    rw [List.mapM_cons]
    cases hfa : f a with
    | none =>
      refine iff_of_true (by simp [hfa]) ⟨a, List.mem_cons_self a t, hfa⟩
    | some b =>
      cases hmt : t.mapM f with
      | none =>
        obtain ⟨x, hx, hfx⟩ := ih.mp hmt
        refine iff_of_true (by simp [hfa, hmt]) ⟨x, List.mem_cons_of_mem a hx, hfx⟩
      | some bs =>
        refine iff_of_false (by simp [hfa, hmt]) ?_
        rintro ⟨x, hx, hfx⟩
        rcases List.mem_cons.mp hx with rfl | hxt
        · rw [hfa] at hfx; exact Option.noConfusion hfx
        · rw [ih.mpr ⟨x, hxt, hfx⟩] at hmt; exact Option.noConfusion hmt

/-- C6 counterexample: with two readable-looking `.rb` entries of which the
second fails to read or parse, `index_dir` does not skip the failing file
and return the first file's symbols — the `.unwrap()` panic (modelled as
`none`) aborts the whole directory walk; the same indexer on the good file
alone succeeds. -/
theorem c6_counterexample :
    indexDir (fun p => if p = "a.rb" then some [c2TopLevelFoo] else none)
        [some ⟨"a.rb", "rb", false⟩, some ⟨"b.rb", "rb", false⟩] = none
    ∧ indexDir (fun p => if p = "a.rb" then some [c2TopLevelFoo] else none)
        [some ⟨"a.rb", "rb", false⟩] = some [c2TopLevelFoo] :=
  ⟨rfl, rfl⟩

/-- C6 (amended): a failing read or parse of a single candidate `.rb` file
is *not* skipped: `index_dir` aborts (panics through the `.unwrap()`)
exactly when some non-directory `.rb` walk entry's file fails to index;
only directory-walk enumeration errors (`Err` entries) and non-`.rb`
entries are dropped silently. -/
theorem c6_per_file_failure_aborts (indexFileCursor : String → Option (List RSymbolV2))
    (walkEntries : List (Option DirEntry)) :
    indexDir indexFileCursor walkEntries = none ↔
      ∃ e : DirEntry, some e ∈ walkEntries ∧ e.isDir = false ∧ e.extension = "rb" ∧
        indexFileCursor e.path = none := by
  unfold indexDir
  rw [Option.map_eq_none', mapM_option_eq_none_iff]
  constructor
  · rintro ⟨x, hx, hfx⟩
    obtain ⟨e, hemem, rfl⟩ := List.mem_map.mp hx
    have he := List.mem_filter.mp hemem
    have hpred := he.2
    simp only [Bool.and_eq_true, Bool.not_eq_eq_eq_not, Bool.not_true,
      decide_eq_true_eq] at hpred
    obtain ⟨ew, hew, hid⟩ := List.mem_filterMap.mp he.1
    refine ⟨e, ?_, ?_, hpred.2, hfx⟩
    · rwa [show ew = some e from hid] at hew
    · simpa using hpred.1
  · rintro ⟨e, he, hdir, hext, hfx⟩
    refine ⟨e.path, List.mem_map.mpr ⟨e, List.mem_filter.mpr
      ⟨List.mem_filterMap.mpr ⟨some e, he, rfl⟩, by simp [hdir, hext]⟩, rfl⟩, hfx⟩

/-! ## Claim C1: constant resolution candidate order -/

/-- Plain segment concatenation of two scopes — the `++` of the claim's
candidate names. -/
def scopeConcat (a b : Scope) : Scope :=
  ⟨a.scopes ++ b.scopes⟩

/-- Modelled from the claim's wording (spec §4.4): for a non-absolute
reference, return every classlike or constant symbol whose full qualified
name (scope joined with name) equals `context ++ referenced`, or
`file-scope ++ referenced`, or `referenced` alone with the symbol defined in
the reference's file; only when that set is empty, fall back to every
classlike or constant symbol whose full qualified name equals `referenced`
alone, searched globally. -/
def findConstantSpec (symbols : List RSymbolV2) (file : String)
    (constantScope contextPrefix : Scope) (fileScopeOpt : Option Scope) : List RSymbolV2 :=
  let fileBase := (fileScopeOpt.getD ⟨[]⟩).withoutLast
  let primary := symbols.filter (fun s =>
    (s.kind.isClasslike || decide (s.kind = RSymbolKind.Constant)) &&
      (decide (s.scope.join (Scope.fromString s.name) = scopeConcat contextPrefix constantScope) ||
       decide (s.scope.join (Scope.fromString s.name) = scopeConcat fileBase constantScope) ||
       (decide (s.scope.join (Scope.fromString s.name) = constantScope) && decide (s.file = file))))
  if primary.isEmpty then
    symbols.filter (fun s =>
      (s.kind.isClasslike || decide (s.kind = RSymbolKind.Constant)) &&
        decide (s.scope.join (Scope.fromString s.name) = constantScope))
  else
    primary

/-- `Scope::join` is plain concatenation when the right-hand side is not
global. -/
theorem Scope.join_eq_concat (a b : Scope) (h : b.isGlobal = false) :
    a.join b = scopeConcat a b := by
  simp [Scope.join, scopeConcat, h]

/-- C1: for every non-absolute constant reference, `find_constant` returns
exactly the classlike/constant symbols whose full qualified name equals
`context ++ referenced` or `file-scope ++ referenced` or equals `referenced`
with the symbol in the reference's file, falling back to a global search for
`referenced` alone only when that set is empty — the code agrees with the
claim's candidate order. -/
theorem c1_constant_candidate_order (symbols : List RSymbolV2) (file : String)
    (constantScope contextPrefix : Scope) (fileScopeOpt : Option Scope)
    (h : constantScope.isGlobal = false) :
    findConstant symbols file constantScope contextPrefix fileScopeOpt =
      findConstantSpec symbols file constantScope contextPrefix fileScopeOpt := by
  unfold findConstant findConstantSpec
  simp only [h, Bool.false_eq_true, if_false, List.filter_filter]
  have hprimary : ∀ s : RSymbolV2, s ∈ symbols →
      (((decide (s.scope.join (Scope.fromString s.name) = contextPrefix.join constantScope) ||
        decide (s.scope.join (Scope.fromString s.name) =
          ((fileScopeOpt.getD ⟨[]⟩).withoutLast).join constantScope) ||
        (decide (s.scope.join (Scope.fromString s.name) = constantScope) &&
          decide (s.file = file))) &&
        (s.kind.isClasslike || decide (s.kind = RSymbolKind.Constant))) : Bool)
      = ((s.kind.isClasslike || decide (s.kind = RSymbolKind.Constant)) &&
        (decide (s.scope.join (Scope.fromString s.name) = scopeConcat contextPrefix constantScope) ||
         decide (s.scope.join (Scope.fromString s.name) =
           scopeConcat ((fileScopeOpt.getD ⟨[]⟩).withoutLast) constantScope) ||
         (decide (s.scope.join (Scope.fromString s.name) = constantScope) &&
           decide (s.file = file)))) := by
    intro s _
    rw [Scope.join_eq_concat contextPrefix constantScope h,
      Scope.join_eq_concat ((fileScopeOpt.getD ⟨[]⟩).withoutLast) constantScope h,
      Bool.and_comm]
  have hfallback : ∀ s : RSymbolV2, s ∈ symbols →
      ((decide (s.scope.join (Scope.fromString s.name) = constantScope) &&
        (s.kind.isClasslike || decide (s.kind = RSymbolKind.Constant))) : Bool)
      = ((s.kind.isClasslike || decide (s.kind = RSymbolKind.Constant)) &&
        decide (s.scope.join (Scope.fromString s.name) = constantScope)) := by
    intro s _
    rw [Bool.and_comm]
  rw [List.filter_congr hprimary, List.filter_congr hfallback]

/-- A constant `D` defined under the nested scope `A::B::C`, for the C1
witness. -/
def c1NestedConst : RSymbolV2 :=
  RSymbolV2.mk RSymbolKind.Constant "D" ⟨["A", "B", "C"]⟩ "app/c.rb" ⟨2, 2⟩ ⟨2, 3⟩ none

/-- C1 witness: the candidate-order equality at a concrete non-absolute
reference `D` from lexical context `A::B::C`. -/
theorem c1_witness :
    findConstant [c1NestedConst] "app/c.rb" ⟨["D"]⟩ ⟨["A", "B", "C"]⟩ none =
      findConstantSpec [c1NestedConst] "app/c.rb" ⟨["D"]⟩ ⟨["A", "B", "C"]⟩ none :=
  c1_constant_candidate_order [c1NestedConst] "app/c.rb" ⟨["D"]⟩ ⟨["A", "B", "C"]⟩ none
    (by decide)

/-! ## Claim C9: the file-index partition -/

/-- The one-step equation of `groupByFile`. -/
theorem groupByFile_cons (s : RSymbolV2) (rest : List RSymbolV2) :
    groupByFile (s :: rest) =
      match groupByFile rest with
      | [] => [(s.file, [s])]
      | (k, g) :: t =>
        if s.file = k then (k, s :: g) :: t else (s.file, [s]) :: (k, g) :: t := rfl

/-- The first group of a nonempty list is keyed by its head's file. -/
theorem groupByFile_cons_head (y : RSymbolV2) (l : List RSymbolV2) :
    ∃ g t, groupByFile (y :: l) = (y.file, g) :: t := by
  rw [groupByFile_cons]
  cases h : groupByFile l with
  | nil => exact ⟨[y], [], rfl⟩
  | cons p t =>
    obtain ⟨k, gg⟩ := p
    dsimp only
    by_cases hc : y.file = k
    · subst hc
      simp
    · simp [hc]

/-- Flattening the groups gives back the original symbol list. -/
theorem groupByFile_flatten (l : List RSymbolV2) :
    ((groupByFile l).map Prod.snd).flatten = l := by
  induction l with
  | nil => rfl
  | cons s rest ih =>
    rw [groupByFile_cons]
    cases h : groupByFile rest with
    | nil =>
      rw [h] at ih
      simp only [List.map_nil, List.flatten_nil] at ih
      simp [← ih]
    | cons p t =>
      obtain ⟨k, g⟩ := p
      rw [h] at ih
      simp only [List.map_cons, List.flatten_cons] at ih
      dsimp only
      by_cases hc : s.file = k
      · simp [hc, ih]
      · simp [hc, ih]

/-- Prepending a nonempty uniform run whose key differs from the next
element's file adds exactly one group. -/
theorem groupByFile_uniform_append (xs l : List RSymbolV2) (k : String)
    (hxs : ∀ s ∈ xs, s.file = k) (hl : ∀ y, l.head? = some y → y.file ≠ k) :
    groupByFile (xs ++ l) =
      if xs.isEmpty then groupByFile l else (k, xs) :: groupByFile l := by
  induction xs with
  | nil => simp
  | cons x xs' ih =>
    have hxk : x.file = k := hxs x (List.mem_cons_self x xs')
    have ih' := ih (fun s hs => hxs s (List.mem_cons_of_mem x hs))
    simp only [List.cons_append, List.isEmpty_cons, Bool.false_eq_true, if_false]
    rw [groupByFile_cons, ih']
    cases hxs' : xs' with
    | nil =>
      simp only [List.isEmpty_nil, if_true]
      cases hl' : l with
      | nil => simp [groupByFile, hxk]
      | cons y l' =>
        obtain ⟨g, t, hgy⟩ := groupByFile_cons_head y l'
        have hyk : y.file ≠ k := hl y (by simp [hl'])
        rw [hgy]
        dsimp only
        rw [if_neg (fun hh => hyk (hxk ▸ hh.symm)), hxk, ← hgy]
    | cons x2 xs2 =>
      simp only [List.isEmpty_cons, Bool.false_eq_true, if_false]
      rw [if_pos hxk]

/-- With each per-file result tagged by its file and distinct files, the
grouping of the concatenated symbol list is exactly the list of nonempty
per-file results. -/
theorem groupByFile_of_fileParses (fileParses : List (String × List RSymbolV2))
    (h1 : ∀ pr ∈ fileParses, ∀ s ∈ pr.2, s.file = pr.1)
    (h2 : (fileParses.map Prod.fst).Nodup) :
    groupByFile ((fileParses.map Prod.snd).flatten) =
      fileParses.filter (fun pr => !pr.2.isEmpty) := by
  induction fileParses with
  | nil => rfl
  | cons pr rest ih =>
    obtain ⟨k, xs⟩ := pr
    simp only [List.map_cons, List.flatten_cons]
    have hxs : ∀ s ∈ xs, s.file = k := h1 (k, xs) (List.mem_cons_self _ _)
    have h2' : k ∉ rest.map Prod.fst ∧ (rest.map Prod.fst).Nodup := by
      simp only [List.map_cons] at h2
      exact List.nodup_cons.mp h2
    have hnodup := h2'.1
    have hl : ∀ y, ((rest.map Prod.snd).flatten).head? = some y → y.file ≠ k := by
      intro y hy
      have hymem : y ∈ (rest.map Prod.snd).flatten := List.mem_of_mem_head? hy
      obtain ⟨l', hl', hyl⟩ := List.mem_flatten.mp hymem
      obtain ⟨pr', hpr', hsnd⟩ := List.mem_map.mp hl'
      have : y.file = pr'.1 := h1 pr' (List.mem_cons_of_mem _ hpr') y (hsnd ▸ hyl)
      rw [this]
      intro hk
      exact hnodup (hk ▸ List.mem_map.mpr ⟨pr', hpr', rfl⟩)
    rw [groupByFile_uniform_append xs ((rest.map Prod.snd).flatten) k hxs hl]
    have ihr := ih (fun q hq => h1 q (List.mem_cons_of_mem _ hq)) h2'.2
    rw [ihr, List.filter_cons]
    by_cases hempty : xs.isEmpty
    · simp [hempty]
    · simp [hempty]

/-- Collecting pairs with pairwise-distinct keys into the hash map keeps
them unchanged (no key is overwritten). -/
theorem hashMapFromPairs_of_nodup (l : List (String × List RSymbolV2))
    (h : (l.map Prod.fst).Nodup) : hashMapFromPairs l = l := by
  suffices haux : ∀ (t acc : List (String × List RSymbolV2)),
      ((acc ++ t).map Prod.fst).Nodup →
      t.foldl (fun m p => hashMapInsert m p.1 p.2) acc = acc ++ t by
    simpa using haux l [] (by simpa using h)
  intro t
  induction t with
  | nil => intro acc _; simp
  | cons p t' ih =>
    intro acc hacc
    obtain ⟨k, v⟩ := p
    have hknotin : k ∉ acc.map Prod.fst := by
      intro hk
      rw [List.map_append] at hacc
      have hdisj := (List.nodup_append.mp hacc).2.2
      exact hdisj hk (by simp)
    have hins : hashMapInsert acc k v = acc ++ [(k, v)] := by
      unfold hashMapInsert
      rw [if_neg]
      simp only [List.any_eq_true, decide_eq_true_eq, not_exists, not_and]
      intro q hq hqk
      exact hknotin (List.mem_map.mpr ⟨q, hq, hqk⟩)
    have hre : (acc ++ (k, v) :: t') = (acc ++ [(k, v)]) ++ t' := by simp
    rw [List.foldl_cons, hins, ih (acc ++ [(k, v)]) (by rw [← hre]; exact hacc), hre]

/-- Looking a file up in an assoc list of per-file results (distinct files,
symbols tagged with their file) gives exactly the file's symbols out of the
concatenation. -/
theorem assoc_lookup_eq_filter (parses : List (String × List RSymbolV2)) (f : String)
    (h1 : ∀ pr ∈ parses, ∀ s ∈ pr.2, s.file = pr.1)
    (h2 : (parses.map Prod.fst).Nodup) :
    ((parses.find? (fun p => decide (p.1 = f))).map Prod.snd).getD [] =
      ((parses.map Prod.snd).flatten).filter (fun s => decide (s.file = f)) := by
  induction parses with
  | nil => rfl
  | cons pr rest ih =>
    obtain ⟨k, xs⟩ := pr
    have hxs : ∀ s ∈ xs, s.file = k := h1 (k, xs) (List.mem_cons_self _ _)
    have h2' : k ∉ rest.map Prod.fst ∧ (rest.map Prod.fst).Nodup := by
      simp only [List.map_cons] at h2
      exact List.nodup_cons.mp h2
    have hrest : ∀ y ∈ (rest.map Prod.snd).flatten, y.file ∈ rest.map Prod.fst := by
      intro y hy
      obtain ⟨l', hl', hyl⟩ := List.mem_flatten.mp hy
      obtain ⟨pr', hpr', hsnd⟩ := List.mem_map.mp hl'
      rw [h1 pr' (List.mem_cons_of_mem _ hpr') y (hsnd ▸ hyl)]
      exact List.mem_map.mpr ⟨pr', hpr', rfl⟩
    simp only [List.map_cons, List.flatten_cons, List.filter_append]
    by_cases hkf : k = f
    · rw [List.find?_cons_of_pos _ (by simpa using hkf)]
      have hxsall : xs.filter (fun s => decide (s.file = f)) = xs :=
        List.filter_eq_self.mpr (fun s hs => by simp [hxs s hs, hkf])
      have hrnil : ((rest.map Prod.snd).flatten).filter (fun s => decide (s.file = f)) = [] := by
        rw [List.filter_eq_nil_iff]
        intro y hy
        simp only [decide_eq_true_eq]
        intro hyf
        exact h2'.1 (hkf ▸ hyf ▸ hrest y hy)
      rw [hxsall, hrnil]
      simp
    · rw [List.find?_cons_of_neg _ (by simpa using hkf)]
      have hxnil : xs.filter (fun s => decide (s.file = f)) = [] := by
        rw [List.filter_eq_nil_iff]
        intro s hs
        simp only [decide_eq_true_eq]
        intro hsf
        exact hkf ((hxs s hs).symm.trans hsf)
      rw [hxnil, List.nil_append]
      exact ih (fun q hq => h1 q (List.mem_cons_of_mem _ hq)) h2'.2

/-- Dropping the empty per-file results does not change the concatenation. -/
theorem flatten_filter_nonempty (l : List (String × List RSymbolV2)) :
    ((l.filter (fun pr => !pr.2.isEmpty)).map Prod.snd).flatten =
      (l.map Prod.snd).flatten := by
  induction l with
  | nil => rfl
  | cons pr rest ih =>
    rw [List.filter_cons]
    by_cases hempty : pr.2.isEmpty
    · have : pr.2 = [] := List.isEmpty_iff.mp hempty
      simp [hempty, this, ih]
    · simp [hempty, ih]

/-- C9: after indexing a set of files (each file's build tagging every
symbol with that file, files pairwise distinct), `file_symbols` returns
exactly the symbols of the global table whose `file` field is the requested
file (`[]` when the file was not indexed), `find_by_path` does the same, and
the union of all per-file groups of the index is the full symbol table. -/
theorem c9_file_index_partition (fileParses : List (String × List RSymbolV2)) (f : String)
    (h1 : ∀ pr ∈ fileParses, ∀ s ∈ pr.2, s.file = pr.1)
    (h2 : (fileParses.map Prod.fst).Nodup) :
    ((fileSymbols ((fileParses.map Prod.snd).flatten) f).getD [] =
      ((fileParses.map Prod.snd).flatten).filter (fun s => decide (s.file = f)))
    ∧ findByPath ((fileParses.map Prod.snd).flatten) f =
      ((fileParses.map Prod.snd).flatten).filter (fun s => decide (s.file = f))
    ∧ ((buildFileIndex ((fileParses.map Prod.snd).flatten)).map Prod.snd).flatten =
      (fileParses.map Prod.snd).flatten := by
  have hgroup := groupByFile_of_fileParses fileParses h1 h2
  have hkeysub : List.Sublist
      ((fileParses.filter (fun pr => !pr.2.isEmpty)).map Prod.fst)
      (fileParses.map Prod.fst) :=
    List.Sublist.map Prod.fst (List.filter_sublist fileParses)
  have hnodupNE := List.Nodup.sublist hkeysub h2
  have hhm : hashMapFromPairs (groupByFile ((fileParses.map Prod.snd).flatten)) =
      groupByFile ((fileParses.map Prod.snd).flatten) :=
    hashMapFromPairs_of_nodup _ (by rw [hgroup]; exact hnodupNE)
  have hbuild : buildFileIndex ((fileParses.map Prod.snd).flatten) =
      fileParses.filter (fun pr => !pr.2.isEmpty) := by
    rw [buildFileIndex, hhm, hgroup]
  refine ⟨?_, rfl, ?_⟩
  · have hlookup := assoc_lookup_eq_filter (fileParses.filter (fun pr => !pr.2.isEmpty)) f
      (fun q hq => h1 q (List.mem_of_mem_filter hq)) hnodupNE
    rw [show fileSymbols ((fileParses.map Prod.snd).flatten) f =
        ((buildFileIndex ((fileParses.map Prod.snd).flatten)).find?
          (fun p => decide (p.1 = f))).map Prod.snd from rfl,
      hbuild, hlookup, flatten_filter_nonempty]
  · rw [buildFileIndex, hhm]
    exact groupByFile_flatten _

/-- Two one-symbol files for the C9 witness. -/
def c9SymA : RSymbolV2 :=
  RSymbolV2.mk (RSymbolKind.Class ⟨[]⟩) "A" ⟨["A"]⟩ "a.rb" ⟨0, 6⟩ ⟨2, 3⟩ none

/-- The second C9 witness symbol, in another file. -/
def c9SymB : RSymbolV2 :=
  RSymbolV2.mk RSymbolKind.Constant "B" ⟨[]⟩ "b.rb" ⟨0, 0⟩ ⟨0, 1⟩ none

/-- C9 witness: the partition property at a concrete two-file index. -/
theorem c9_witness :
    ((fileSymbols (([("a.rb", [c9SymA]), ("b.rb", [c9SymB])].map Prod.snd).flatten) "a.rb").getD [] =
      (([("a.rb", [c9SymA]), ("b.rb", [c9SymB])].map Prod.snd).flatten).filter
        (fun s => decide (s.file = "a.rb")))
    ∧ findByPath (([("a.rb", [c9SymA]), ("b.rb", [c9SymB])].map Prod.snd).flatten) "a.rb" =
      (([("a.rb", [c9SymA]), ("b.rb", [c9SymB])].map Prod.snd).flatten).filter
        (fun s => decide (s.file = "a.rb"))
    ∧ ((buildFileIndex (([("a.rb", [c9SymA]), ("b.rb", [c9SymB])].map Prod.snd).flatten)).map
        Prod.snd).flatten =
      ([("a.rb", [c9SymA]), ("b.rb", [c9SymB])].map Prod.snd).flatten :=
  c9_file_index_partition [("a.rb", [c9SymA]), ("b.rb", [c9SymB])] "a.rb"
    (by decide) (by decide)

/-! ## Claim C4: fuzzy search ranking -/

/-- The explicit shape of a successful `computeRank`. -/
theorem computeRank_eq_some_iff (fuzzy : String → String → Option (Int × List Nat))
    (rootPath : List String) (query : String) (s : SymbolInformation)
    (p : SymbolInformation × MatchRank) :
    computeRank fuzzy rootPath query s = some p ↔
      ∃ score indices, fuzzy s.name query = some (score, indices) ∧
        p = (s, (asI32 score, (if List.isPrefixOf rootPath s.path then (1 : Int) else -1),
          -(asI32 (indices.head?.getD 0)), -(asI32 (indices.getLast?.getD 0)),
          -(asI32 s.name.utf8ByteSize))) := by
  cases hfz : fuzzy s.name query with
  | none => simp [computeRank, hfz]
  | some pr =>
    obtain ⟨score, indices⟩ := pr
    simp only [computeRank, hfz, Option.some.injEq, Prod.mk.injEq]
    constructor
    · intro h
      exact ⟨score, indices, ⟨rfl, rfl⟩, h.symm⟩
    · rintro ⟨sc, idx, ⟨h1, h2⟩, hp⟩
      subst h1
      subst h2
      exact hp.symm
  
/-- A member of the scored list is the scored image of its own symbol. -/
theorem mem_filterMap_computeRank (fuzzy : String → String → Option (Int × List Nat))
    (rootPath : List String) (query : String) (symbols : List SymbolInformation)
    (p : SymbolInformation × MatchRank)
    (hp : p ∈ symbols.filterMap (computeRank fuzzy rootPath query)) :
    computeRank fuzzy rootPath query p.1 = some p := by
  obtain ⟨a, _, hcr⟩ := List.mem_filterMap.mp hp
  obtain ⟨score, indices, hfz, hpe⟩ := (computeRank_eq_some_iff fuzzy rootPath query a p).mp hcr
  subst hpe
  exact (computeRank_eq_some_iff fuzzy rootPath query a _).mpr ⟨score, indices, hfz, rfl⟩

/-- Dropping the ranks of the scored list leaves exactly the symbols the
fuzzy matcher accepts. -/
theorem filterMap_computeRank_map_fst (fuzzy : String → String → Option (Int × List Nat))
    (rootPath : List String) (query : String) (symbols : List SymbolInformation) :
    (symbols.filterMap (computeRank fuzzy rootPath query)).map Prod.fst =
      symbols.filter (fun s => (fuzzy s.name query).isSome) := by
  induction symbols with
  | nil => rfl
  | cons a t ih =>
    rw [List.filterMap_cons, List.filter_cons]
    cases hfz : fuzzy a.name query with
    | none =>
      have hcr : computeRank fuzzy rootPath query a = none := by simp [computeRank, hfz]
      rw [hcr]
      simpa [hfz] using ih
    | some pr =>
      obtain ⟨score, indices⟩ := pr
      have hcr : computeRank fuzzy rootPath query a = some (a,
          (asI32 score, (if List.isPrefixOf rootPath a.path then (1 : Int) else -1),
            -(asI32 (indices.head?.getD 0)), -(asI32 (indices.getLast?.getD 0)),
            -(asI32 a.name.utf8ByteSize))) := by
        simp [computeRank, hfz]
      rw [hcr]
      simpa [hfz] using ih

/-- C4: `match_symbols` returns exactly the symbols whose name the fuzzy
matcher accepts (a permutation of that filter), in an order that descends
lexicographically in the ranking key `(score as i32, in_root, -start, -end,
-len)`; in particular, of two returned symbols with the same fuzzy score of
which the first argument's is inside the project root and the other's is
not, the project-root symbol comes strictly earlier. -/
theorem c4_fuzzy_ranking (fuzzy : String → String → Option (Int × List Nat))
    (rootPath : List String) (query : String) (symbols : List SymbolInformation) :
    (matchSymbols fuzzy rootPath query symbols).Perm
        (symbols.filter (fun s => (fuzzy s.name query).isSome))
    ∧ List.Pairwise (fun a b => ∃ ra rb,
        computeRank fuzzy rootPath query a = some (a, ra) ∧
        computeRank fuzzy rootPath query b = some (b, rb) ∧ rankLe rb ra)
        (matchSymbols fuzzy rootPath query symbols)
    ∧ (∀ i j : Fin (matchSymbols fuzzy rootPath query symbols).length,
        (fuzzy ((matchSymbols fuzzy rootPath query symbols).get i).name query).map Prod.fst =
          (fuzzy ((matchSymbols fuzzy rootPath query symbols).get j).name query).map Prod.fst →
        List.isPrefixOf rootPath ((matchSymbols fuzzy rootPath query symbols).get i).path = true →
        List.isPrefixOf rootPath ((matchSymbols fuzzy rootPath query symbols).get j).path = false →
        i < j) := by
  have hout : matchSymbols fuzzy rootPath query symbols =
      (List.insertionSort scoredGe
        (symbols.filterMap (computeRank fuzzy rootPath query))).map Prod.fst := rfl
  have hperm : (List.insertionSort scoredGe
      (symbols.filterMap (computeRank fuzzy rootPath query))).Perm
      (symbols.filterMap (computeRank fuzzy rootPath query)) :=
    List.perm_insertionSort _ _
  have hmemscored : ∀ p ∈ List.insertionSort scoredGe
      (symbols.filterMap (computeRank fuzzy rootPath query)),
      computeRank fuzzy rootPath query p.1 = some p := fun p hp =>
    mem_filterMap_computeRank fuzzy rootPath query symbols p (hperm.subset hp)
  have hsorted : List.Pairwise scoredGe (List.insertionSort scoredGe
      (symbols.filterMap (computeRank fuzzy rootPath query))) :=
    List.sorted_insertionSort scoredGe _
  have hpairwise : List.Pairwise (fun a b => ∃ ra rb,
      computeRank fuzzy rootPath query a = some (a, ra) ∧
      computeRank fuzzy rootPath query b = some (b, rb) ∧ rankLe rb ra)
      (matchSymbols fuzzy rootPath query symbols) := by
    rw [hout, List.pairwise_map]
    refine List.Pairwise.imp_of_mem ?_ hsorted
    intro p q hp hq hpq
    refine ⟨p.2, q.2, ?_, ?_, hpq⟩
    · rw [Prod.mk.eta]
      exact hmemscored p hp
    · rw [Prod.mk.eta]
      exact hmemscored q hq
  refine ⟨?_, hpairwise, ?_⟩
  · rw [hout]
    exact (hperm.map Prod.fst).trans
      (List.Perm.of_eq (filterMap_computeRank_map_fst fuzzy rootPath query symbols))
  · intro i j hscore hrooti hrootj
    rcases lt_trichotomy i j with hlt | heq | hgt
    · exact hlt
    · subst heq
      rw [hrooti] at hrootj
      exact absurd hrootj (by simp)
    · exfalso
      have hrel := List.pairwise_iff_get.mp hpairwise j i hgt
      obtain ⟨rj, ri, hcrj, hcri, hle⟩ := hrel
      obtain ⟨scj, idxj, hfzj, hpj⟩ :=
        (computeRank_eq_some_iff fuzzy rootPath query _ _).mp hcrj
      obtain ⟨sci, idxi, hfzi, hpi⟩ :=
        (computeRank_eq_some_iff fuzzy rootPath query _ _).mp hcri
      have hrj : rj = (asI32 scj,
          (if List.isPrefixOf rootPath ((matchSymbols fuzzy rootPath query symbols).get j).path
            then (1 : Int) else -1),
          -(asI32 (idxj.head?.getD 0)), -(asI32 (idxj.getLast?.getD 0)),
          -(asI32 ((matchSymbols fuzzy rootPath query symbols).get j).name.utf8ByteSize)) :=
        congrArg Prod.snd hpj
      have hri : ri = (asI32 sci,
          (if List.isPrefixOf rootPath ((matchSymbols fuzzy rootPath query symbols).get i).path
            then (1 : Int) else -1),
          -(asI32 (idxi.head?.getD 0)), -(asI32 (idxi.getLast?.getD 0)),
          -(asI32 ((matchSymbols fuzzy rootPath query symbols).get i).name.utf8ByteSize)) :=
        congrArg Prod.snd hpi
      have hsc : sci = scj := by
        rw [hfzi, hfzj] at hscore
        simpa using hscore
      rw [hri, hrj, hrooti, hrootj, hsc] at hle
      unfold rankLe at hle
      simp at hle

/-- A concrete external fuzzy matcher for the C4 witness: every name scores
5 with the single matched index 0. -/
def c4Fuzzy : String → String → Option (Int × List Nat) :=
  fun _ _ => some (5, [0])

/-- Two symbols for the C4 witness: one outside and one inside the root. -/
def c4Syms : List SymbolInformation :=
  [⟨"b", ["out", "b.rb"]⟩, ⟨"a", ["root", "a.rb"]⟩]

/-- C4 witness: at a concrete query, the in-root symbol (listed second)
is ranked strictly before the out-of-root symbol of equal score. -/
theorem c4_witness :
    ∃ (h0 : 0 < (matchSymbols c4Fuzzy ["root"] "q" c4Syms).length)
      (h1 : 1 < (matchSymbols c4Fuzzy ["root"] "q" c4Syms).length),
      (⟨0, h0⟩ : Fin (matchSymbols c4Fuzzy ["root"] "q" c4Syms).length) < ⟨1, h1⟩
      ∧ List.isPrefixOf ["root"]
          ((matchSymbols c4Fuzzy ["root"] "q" c4Syms).get ⟨0, h0⟩).path = true
      ∧ List.isPrefixOf ["root"]
          ((matchSymbols c4Fuzzy ["root"] "q" c4Syms).get ⟨1, h1⟩).path = false := by
  have h0 : 0 < (matchSymbols c4Fuzzy ["root"] "q" c4Syms).length := by decide
  have h1 : 1 < (matchSymbols c4Fuzzy ["root"] "q" c4Syms).length := by decide
  refine ⟨h0, h1, ?_, rfl, rfl⟩
  exact (c4_fuzzy_ranking c4Fuzzy ["root"] "q" c4Syms).2.2 ⟨0, h0⟩ ⟨1, h1⟩
    rfl rfl rfl
